import Mathlib

/-!
# Vehicle Road-Rule Behavior Analyzer: a shallow embedding

This file embeds the core of the analyzer (`src/rules.py`, `src/parser.py`,
`src/report.py`) in Lean 4 and proves properties of the embedding.

Python floats are modelled as rational numbers (`ℚ`), exact arithmetic on the
values the program manipulates; Python strings as Lean `String` / `List Char`.
The built-in parsers `int()` / `float()` are modelled by `pyInt?` / `pyFloat?`
on their finite decimal-literal forms (optional sign, digits, optional point
and fraction, optional exponent); the special float spellings (`inf`, `nan`,
embedded underscores, surrounding whitespace) are outside the rational model.
Raised exceptions are modelled by `Except.error`.
-/

/- `Rat`'s arithmetic is `@[irreducible]` in the library; the development
evaluates the embedded program on concrete inputs with `decide`, so the
operations are restored to their normal reducibility. -/
set_option allowUnsafeReducibility true

attribute [semireducible] Rat.add Rat.mul Rat.sub Rat.inv Rat.neg

deriving instance DecidableEq for Except

/-- The character for the decimal digit `d` (for `d < 10`). -/
def digitChar (d : ℕ) : Char := Char.ofNat (48 + d)

/-- Numeric value of a digit string, as Python reads `"0317"` (value 317):
fold accumulating `10 * acc + digit`. Non-digit characters contribute their
code point minus 48. -/
def digitsVal (l : List Char) : ℕ := l.foldl (fun a c => 10 * a + (c.toNat - 48)) 0

/-- Floor of a rational, computed from the numerator and denominator
(`Int.fdiv` is floor division; the denominator is positive). Python's
`t // 60` on floats is this floor, and `int(...)` of it is exact. -/
def ratFloor (q : ℚ) : ℤ := Int.fdiv q.num q.den

/-- Round half to even, the rounding Python's `format` applies to the exact
value when producing a fixed number of decimals. -/
def rhe (q : ℚ) : ℤ :=
  if q - ratFloor q < 1/2 then ratFloor q
  else if 1/2 < q - ratFloor q then ratFloor q + 1
  else if ratFloor q % 2 = 0 then ratFloor q else ratFloor q + 1

/-- Decimal digits of a natural number, most significant first; fuelled
recursion on `n / 10` (any fuel above `n` gives the same list). -/
def natToCharsAux : ℕ → ℕ → List Char
  | 0, _ => []
  | fuel + 1, n =>
    if n < 10 then [digitChar n]
    else natToCharsAux fuel (n / 10) ++ [digitChar (n % 10)]

/-- Decimal digits of a natural number, as Python's `"%d"`. -/
def natToChars (n : ℕ) : List Char := natToCharsAux (n + 1) n

/-- Left-pad a character list with `'0'` to width `w`, as Python's
zero-padded format specifications do. -/
def padZeros (w : ℕ) (l : List Char) : List Char :=
  List.replicate (w - l.length) '0' ++ l

/-- Python's `f"{m:0wd}"` for an integer `m`: zero-padded to total width `w`,
the sign counted in the width and the padding placed after the sign. -/
def intChars (m : ℤ) (w : ℕ) : List Char :=
  if m < 0 then '-' :: padZeros (w - 1) (natToChars (-m).toNat)
  else padZeros w (natToChars m.toNat)

/-- `src/rules.py` `_fmt_time`: format seconds as `MM:SS.s`
(`m = int(t // 60)`, `s = t - m * 60`, `f"{m:02d}:{s:04.1f}"`).
`s` always lies in `[0, 60)`, so the seconds field is non-negative; its
value rounded to one decimal is the natural number `n ≤ 600` below. -/
def _fmt_time (t : ℚ) : String :=
  let m : ℤ := ratFloor (t / 60)
  let s : ℚ := t - m * 60
  let n : ℕ := (rhe (10 * s)).toNat
  ⟨intChars m 2 ++ ':' :: padZeros 4 (natToChars (n / 10) ++ '.' :: [digitChar (n % 10)])⟩

/-- Python's `f"{x:.1f}"`: the value rounded half-to-even to one decimal. -/
def fmtFixed1 (x : ℚ) : String :=
  let n : ℕ := (rhe (10 * |x|)).toNat
  ⟨(if x < 0 then ['-'] else []) ++ natToChars (n / 10) ++ '.' :: [digitChar (n % 10)]⟩

/-- Python's `f"{x:.0f}"`: the value rounded half-to-even to an integer. -/
def fmtFixed0 (x : ℚ) : String :=
  let n : ℕ := (rhe |x|).toNat
  ⟨(if x < 0 then ['-'] else []) ++ natToChars n⟩

/-- Python's `str.split(sep)` for a one-character separator: the (possibly
empty) pieces between occurrences of `sep`; `"".split(sep) == [""]`. -/
def pySplit (sep : Char) : List Char → List (List Char)
  | [] => [[]]
  | c :: rest =>
    if c = sep then [] :: pySplit sep rest
    else
      match pySplit sep rest with
      | [] => [[c]]
      | p :: ps => (c :: p) :: ps

/-- Split at the first occurrence of `sep`: `some (before, after)`, or `none`
when `sep` does not occur. -/
def splitOnce (sep : Char) : List Char → Option (List Char × List Char)
  | [] => none
  | c :: rest =>
    if c = sep then some ([], rest)
    else
      match splitOnce sep rest with
      | none => none
      | some (a, b) => some (c :: a, b)

/-- Split at the first `'e'` or `'E'` (the exponent marker of a float
literal): `some (mantissa, exponent)`, or `none` when absent. -/
def splitExpMark : List Char → Option (List Char × List Char)
  | [] => none
  | c :: rest =>
    if c = 'e' ∨ c = 'E' then some ([], rest)
    else
      match splitExpMark rest with
      | none => none
      | some (a, b) => some (c :: a, b)

/-- The value of a non-empty all-digit string, `none` otherwise. -/
def digitsVal? (l : List Char) : Option ℕ :=
  if l.isEmpty then none
  else if l.all Char.isDigit then some (digitsVal l) else none

/-- Model of Python's `int(str)` on decimal literals: optional sign, then
one or more digits. -/
def pyInt? (l : List Char) : Option ℤ :=
  match l with
  | [] => none
  | c :: r =>
    if c = '-' then (digitsVal? r).map (fun k => -(k : ℤ))
    else if c = '+' then (digitsVal? r).map (fun k => (k : ℤ))
    else (digitsVal? (c :: r)).map (fun k => (k : ℤ))

/-- Value of the fractional digits after a decimal point:
`fracVal "25" = 0.25`. -/
def fracVal (l : List Char) : ℚ :=
  l.foldr (fun c a => (((c.toNat - 48 : ℕ) : ℚ) + a) / 10) 0

/-- Mantissa of a float literal: `digits`, `digits.`, `digits.digits` or
`.digits` (at least one digit in total). -/
def pyMantissa? (l : List Char) : Option ℚ :=
  match splitOnce '.' l with
  | none => (digitsVal? l).map (fun k => (k : ℚ))
  | some (ip, fp) =>
    if ip.isEmpty && fp.isEmpty then none
    else if ip.all Char.isDigit && fp.all Char.isDigit then
      some ((digitsVal ip : ℚ) + fracVal fp)
    else none

/-- Unsigned float literal: mantissa with an optional `e`/`E` exponent. -/
def pyFloatUnsigned? (l : List Char) : Option ℚ :=
  match splitExpMark l with
  | none => pyMantissa? l
  | some (mant, ex) =>
    match pyMantissa? mant, pyInt? ex with
    | some mv, some ev => some (mv * (10 : ℚ) ^ ev)
    | _, _ => none

/-- Model of Python's `float(str)` on finite decimal literals: optional
sign, then an unsigned float literal. -/
def pyFloat? (l : List Char) : Option ℚ :=
  match l with
  | [] => none
  | c :: r =>
    if c = '-' then (pyFloatUnsigned? r).map (fun q => -q)
    else if c = '+' then pyFloatUnsigned? r
    else pyFloatUnsigned? (c :: r)

/-- `src/parser.py` `parse_time`: split on `':'`, require exactly two parts,
minutes parsed by `int()`, seconds by `float()`, value `minutes*60 + seconds`;
every failure is the uniform `ValueError` (`"bad timestamp"`). -/
def parse_time (ts : String) : Except String ℚ :=
  match pySplit ':' ts.data with
  | [minutes, seconds] =>
    match pyInt? minutes, pyFloat? seconds with
    | some m, some s => .ok ((m : ℚ) * 60 + s)
    | _, _ => .error ("bad timestamp: " ++ ts)
  | _ => .error ("bad timestamp: " ++ ts)

/-- The three thresholds of `scenario["road_rules"]`, already extracted as
numbers (`detect_violations` converts them with `float()` on entry). -/
structure RoadRules where
  max_speed : ℚ
  min_follow_distance : ℚ
  stop_sign_wait : ℚ
deriving DecidableEq, Repr

/-- One event of the log: `(t, kind, arg)` with the time in seconds, the
kind a string, the argument a string (parsed inside the detector). -/
structure Event where
  time : ℚ
  kind : String
  arg : String
deriving DecidableEq, Repr

/-- One emitted violation record `{"type", "time", "details"}`. -/
structure Violation where
  type : String
  time : String
  details : String
deriving DecidableEq, Repr

/-- The detector's mutable state: `last_follow` and `stop_detect_time`
of `src/rules.py`, both starting as `None`. -/
structure DState where
  last_follow : Option ℚ
  stop_detect_time : Option ℚ
deriving DecidableEq, Repr

/-- The initial detector state (`last_follow = None`,
`stop_detect_time = None`). -/
def initState : DState := ⟨none, none⟩

/-- Violations of type `ty` in a list. -/
def countType (vs : List Violation) (ty : String) : ℕ :=
  (vs.filter (fun v => v.type == ty)).length

/-- The loop body of `src/rules.py` `detect_violations` for one event:
the updated state and the violations appended for this event, or the raised
error (`float()` failure on a numeric argument, or an unknown kind). -/
def detectStep (R : RoadRules) (st : DState) (e : Event) :
    Except String (DState × List Violation) :=
  if e.kind = "SPEED" then
    match pyFloat? e.arg.data with
    | none => .error ("could not convert string to float: " ++ e.arg)
    | some speed =>
      let sv : List Violation :=
        if speed > R.max_speed then
          [⟨"SPEEDING", _fmt_time e.time,
            fmtFixed1 speed ++ " mph in " ++ fmtFixed0 R.max_speed ++ " mph zone"⟩]
        else []
      match st.stop_detect_time with
      | some t0 =>
        if speed > 1 ∧ e.time > t0 then
          let waited := e.time - t0
          let rv : List Violation :=
            if waited < R.stop_sign_wait then
              [⟨"ROLLING_STOP", _fmt_time e.time,
                "Stopped " ++ fmtFixed1 waited ++ "s; required " ++
                  fmtFixed1 R.stop_sign_wait ++ "s"⟩]
            else []
          .ok ({ st with stop_detect_time := none }, sv ++ rv)
        else .ok (st, sv)
      | none => .ok (st, sv)
  else if e.kind = "FOLLOW_DISTANCE" then
    match pyFloat? e.arg.data with
    | none => .error ("could not convert string to float: " ++ e.arg)
    | some dist =>
      if dist < R.min_follow_distance then
        .ok ({ st with last_follow := some dist },
          [⟨"TAILGATING", _fmt_time e.time,
            fmtFixed1 dist ++ " m < " ++ fmtFixed1 R.min_follow_distance ++ " m"⟩])
      else .ok ({ st with last_follow := some dist }, [])
  else if e.kind = "LANE_CHANGE" then
    match st.last_follow with
    | some lf =>
      if lf < R.min_follow_distance then
        .ok (st, [⟨"UNSAFE_LANE_CHANGE", _fmt_time e.time,
          "follow " ++ fmtFixed1 lf ++ " m < " ++ fmtFixed1 R.min_follow_distance ++ " m"⟩])
      else .ok (st, [])
    | none => .ok (st, [])
  else if e.kind = "STOP_SIGN_DETECTED" then
    .ok ({ st with stop_detect_time := some e.time }, [])
  else .error ("unknown kind: " ++ e.kind)

/-- The whole event loop of `detect_violations`: fold `detectStep` over the
events, concatenating the appended violations in emission order; the first
raised error aborts the run. -/
def processEvents (R : RoadRules) (st : DState) :
    List Event → Except String (DState × List Violation)
  | [] => .ok (st, [])
  | e :: rest =>
    match detectStep R st e with
    | .error msg => .error msg
    | .ok (st1, vs1) =>
      match processEvents R st1 rest with
      | .error msg => .error msg
      | .ok (st2, vs2) => .ok (st2, vs1 ++ vs2)

/-- `float(v["time"].replace(":", "").replace(".", ""))`: drop `':'` and
`'.'` from the formatted time and read the rest as a (possibly
`'-'`-signed) digit string. -/
def sortKey (time : String) : ℚ :=
  let digits := time.data.filter (fun c => !(c == ':' || c == '.'))
  match digits with
  | [] => 0
  | c :: r => if c = '-' then -((digitsVal r : ℤ) : ℚ) else ((digitsVal digits : ℤ) : ℚ)

/-- The sort's comparison: non-strict order on the violations' keys. -/
def vle (a b : Violation) : Prop := sortKey a.time ≤ sortKey b.time

instance : DecidableRel vle := fun a b =>
  inferInstanceAs (Decidable (sortKey a.time ≤ sortKey b.time))

instance : IsTotal Violation vle := ⟨fun a b => le_total (sortKey a.time) (sortKey b.time)⟩

instance : IsTrans Violation vle := ⟨fun _ _ _ => le_trans⟩

/-- `violations.sort(key=...)` of `src/rules.py`: Python's `list.sort` is a
stable sort; `List.insertionSort` over the non-strict key comparison computes
exactly that (stable sorts with the same total preorder agree pointwise). -/
def sortViolations (l : List Violation) : List Violation :=
  l.insertionSort vle

/-- `src/rules.py` `detect_violations`: run the event loop from the fresh
state, then sort the collected violations by the formatted-time key. -/
def detect_violations (R : RoadRules) (events : List Event) :
    Except String (List Violation) :=
  match processEvents R initState events with
  | .error msg => .error msg
  | .ok (_, vs) => .ok (sortViolations vs)

/-- The kinds `detect_violations` recognizes; any other kind raises. -/
def isKnownKind (k : String) : Prop :=
  k = "SPEED" ∨ k = "FOLLOW_DISTANCE" ∨ k = "LANE_CHANGE" ∨ k = "STOP_SIGN_DETECTED"

instance (k : String) : Decidable (isKnownKind k) :=
  inferInstanceAs (Decidable (_ ∨ _ ∨ _ ∨ _))

/-- How one event updates the `last_follow` cell: a `FOLLOW_DISTANCE` event
with a parsable argument overwrites it, every other event keeps it. -/
def lastFollowStep (acc : Option ℚ) (e : Event) : Option ℚ :=
  if e.kind = "FOLLOW_DISTANCE" then
    match pyFloat? e.arg.data with
    | some d => some d
    | none => acc
  else acc

/-- The most recently recorded follow distance over a whole event list
(`none` when no `FOLLOW_DISTANCE` event occurs). -/
def lastFollowOf (es : List Event) : Option ℚ := es.foldl lastFollowStep none

/-- A timestamp string in the exact shape `_fmt_time` prints for times below
an hour: two-digit zero-padded minutes `m < 60`, `':'`, the seconds rounded
value `n < 600` printed as two digits, `'.'`, one decimal digit. -/
def canonicalTime (m n : ℕ) : String :=
  ⟨[digitChar (m / 10), digitChar (m % 10), ':',
    digitChar (n / 100), digitChar (n / 10 % 10), '.', digitChar (n % 10)]⟩

/-- The scenario object as `src/report.py` reads it: possibly `None`
(modelled by an outer `Option`), with an optional string `name`. -/
structure Scenario where
  name : Option String
deriving DecidableEq, Repr

/-- The report dict `{"scenario", "violations", "total_violations"}`. -/
structure Report where
  scenario : String
  violations : List Violation
  total_violations : ℕ
deriving DecidableEq, Repr

/-- Python whitespace stripped by `str.strip()` (ASCII part). -/
def isPySpace (c : Char) : Bool :=
  c == ' ' || c == '\t' || c == '\n' || c == '\x0b' || c == '\x0c' || c == '\r'

/-- Python's `str.strip()`: drop leading and trailing whitespace. -/
def pyStrip (s : String) : String :=
  ⟨((s.data.dropWhile isPySpace).reverse.dropWhile isPySpace).reverse⟩

/-- `src/report.py` `make_report`: the fallback name `"Unnamed"` is used for
a `None` scenario, an absent or `None` name, the empty (falsy) name and an
all-whitespace name; otherwise the stripped name. -/
def make_report (scenario : Option Scenario) (violations : List Violation) : Report :=
  let report_name : String :=
    match scenario with
    | none => "Unnamed"
    | some sc =>
      match sc.name with
      | none => "Unnamed"
      | some n => if n = "" ∨ pyStrip n = "" then "Unnamed" else pyStrip n
  ⟨report_name, violations, violations.length⟩

/-! ### Lemmas and claim theorems -/

theorem countType_append (a b : List Violation) (ty : String) :
    countType (a ++ b) ty = countType a ty + countType b ty := by
  simp [countType, List.filter_append]

/-- C2: a `SPEED` event with numeric value `v` emits a `SPEEDING` violation
for that event exactly when `v > max_speed`; at `v = max_speed` it emits
none. The step always succeeds, whatever the detector state. -/
theorem C2_speeding_iff (R : RoadRules) (st : DState) (t v : ℚ) (a : String)
    (ha : pyFloat? a.data = some v) :
    ∃ st2 vs, detectStep R st ⟨t, "SPEED", a⟩ = .ok (st2, vs) ∧
      countType vs "SPEEDING" = (if v > R.max_speed then 1 else 0) ∧
      (v = R.max_speed → countType vs "SPEEDING" = 0) := by
  obtain ⟨lf, sd⟩ := st
  rcases sd with _ | t0 <;> simp only [detectStep, ha] <;> split_ifs with h1 h2 h3 <;>
    refine ⟨_, _, rfl, ?_, ?_⟩ <;>
    simp_all [countType] <;>
    first
      | (intro h; subst h; exact absurd ‹R.max_speed < R.max_speed› (lt_irrefl _))
      | skip

/-- Witness for C2: with `max_speed = 60`, the event `SPEED 70.0` at time 0
emits exactly one `SPEEDING` violation. -/
theorem C2_speeding_iff_witness :
    ∃ st2 vs, detectStep ⟨60, 10, 3⟩ initState ⟨0, "SPEED", "70.0"⟩ = .ok (st2, vs) ∧
      countType vs "SPEEDING" = 1 := by
  obtain ⟨st2, vs, h1, h2, h3⟩ :=
    C2_speeding_iff ⟨60, 10, 3⟩ initState 0 70 "70.0" (by decide)
  refine ⟨st2, vs, h1, ?_⟩
  rw [h2]
  norm_num

/-- C3: a `FOLLOW_DISTANCE` event with numeric value `d` records `d` as the
last follow distance (overwriting any previous value) and emits a
`TAILGATING` violation exactly when `d < min_follow_distance`; at
`d = min_follow_distance` it emits nothing. -/
theorem C3_tailgating_iff (R : RoadRules) (st : DState) (t d : ℚ) (a : String)
    (ha : pyFloat? a.data = some d) :
    ∃ vs, detectStep R st ⟨t, "FOLLOW_DISTANCE", a⟩ =
        .ok ({ st with last_follow := some d }, vs) ∧
      countType vs "TAILGATING" = (if d < R.min_follow_distance then 1 else 0) ∧
      (d = R.min_follow_distance → vs = []) := by
  have h0 : detectStep R st ⟨t, "FOLLOW_DISTANCE", a⟩ =
      match pyFloat? a.data with
      | none => .error ("could not convert string to float: " ++ a)
      | some dist =>
        if dist < R.min_follow_distance then
          .ok ({ st with last_follow := some dist },
            [⟨"TAILGATING", _fmt_time t,
              fmtFixed1 dist ++ " m < " ++ fmtFixed1 R.min_follow_distance ++ " m"⟩])
        else .ok ({ st with last_follow := some dist }, []) := rfl
  rw [h0, ha]
  dsimp only
  split_ifs with h1 <;> refine ⟨_, rfl, ?_, ?_⟩ <;> simp_all [countType]
  intro h; subst h; exact absurd h1 (lt_irrefl _)

/-- Witness for C3: with `min_follow_distance = 10`, the event
`FOLLOW_DISTANCE 5.0` at time 1 records distance 5 and emits exactly one
`TAILGATING` violation. -/
theorem C3_tailgating_iff_witness :
    ∃ vs, detectStep ⟨60, 10, 3⟩ initState ⟨1, "FOLLOW_DISTANCE", "5.0"⟩ =
        .ok ({ initState with last_follow := some 5 }, vs) ∧
      countType vs "TAILGATING" = 1 := by
  obtain ⟨vs, h1, h2, h3⟩ :=
    C3_tailgating_iff ⟨60, 10, 3⟩ initState 1 5 "5.0" (by decide)
  refine ⟨vs, h1, ?_⟩
  rw [h2]
  norm_num

/-- Definitional unfolding of `detectStep` on a `SPEED` event: everything up
to the stuck argument parse and state match. -/
theorem detectStep_speed_eq (R : RoadRules) (st : DState) (t : ℚ) (a : String) :
    detectStep R st ⟨t, "SPEED", a⟩ =
      match pyFloat? a.data with
      | none => .error ("could not convert string to float: " ++ a)
      | some speed =>
        let sv : List Violation :=
          if speed > R.max_speed then
            [⟨"SPEEDING", _fmt_time t,
              fmtFixed1 speed ++ " mph in " ++ fmtFixed0 R.max_speed ++ " mph zone"⟩]
          else []
        match st.stop_detect_time with
        | some t0 =>
          if speed > 1 ∧ t > t0 then
            .ok ({ st with stop_detect_time := none },
              sv ++
                if t - t0 < R.stop_sign_wait then
                  [⟨"ROLLING_STOP", _fmt_time t,
                    "Stopped " ++ fmtFixed1 (t - t0) ++ "s; required " ++
                      fmtFixed1 R.stop_sign_wait ++ "s"⟩]
                else [])
          else .ok (st, sv)
        | none => .ok (st, sv) := rfl

/-- Definitional unfolding of `detectStep` on a `LANE_CHANGE` event. -/
theorem detectStep_lane_eq (R : RoadRules) (st : DState) (t : ℚ) (a : String) :
    detectStep R st ⟨t, "LANE_CHANGE", a⟩ =
      match st.last_follow with
      | some lf =>
        if lf < R.min_follow_distance then
          .ok (st, [⟨"UNSAFE_LANE_CHANGE", _fmt_time t,
            "follow " ++ fmtFixed1 lf ++ " m < " ++ fmtFixed1 R.min_follow_distance ++ " m"⟩])
        else .ok (st, [])
      | none => .ok (st, []) := rfl

/-- A `STOP_SIGN_DETECTED` event records its time, overwriting any pending
wait, and emits nothing. -/
theorem detectStep_stop_eq (R : RoadRules) (st : DState) (t : ℚ) (a : String) :
    detectStep R st ⟨t, "STOP_SIGN_DETECTED", a⟩ =
      .ok ({ st with stop_detect_time := some t }, []) := rfl

/-- An event of unrecognized kind raises `ValueError("unknown kind: ...")`. -/
theorem detectStep_unknown (R : RoadRules) (st : DState) (e : Event)
    (hk : ¬ isKnownKind e.kind) :
    detectStep R st e = .error ("unknown kind: " ++ e.kind) := by
  have h1 : ¬ e.kind = "SPEED" := fun h => hk (Or.inl h)
  have h2 : ¬ e.kind = "FOLLOW_DISTANCE" := fun h => hk (Or.inr (Or.inl h))
  have h3 : ¬ e.kind = "LANE_CHANGE" := fun h => hk (Or.inr (Or.inr (Or.inl h)))
  have h4 : ¬ e.kind = "STOP_SIGN_DETECTED" := fun h => hk (Or.inr (Or.inr (Or.inr h)))
  simp only [detectStep, if_neg h1, if_neg h2, if_neg h3, if_neg h4]

/-- A run over a list containing an unrecognized kind raises: the error
propagates out of the loop, whatever state it starts in. -/
theorem processEvents_error_of_unknown (R : RoadRules) :
    ∀ (es : List Event) (st : DState), (∃ e ∈ es, ¬ isKnownKind e.kind) →
      ∃ msg, processEvents R st es = .error msg := by
  intro es
  induction es with
  | nil =>
    rintro st ⟨e, he, -⟩
    exact absurd he (List.not_mem_nil e)
  | cons e rest ih =>
    rintro st ⟨e', he', hk⟩
    rcases List.mem_cons.mp he' with rfl | he'
    · exact ⟨"unknown kind: " ++ e'.kind,
        by simp [processEvents, detectStep_unknown R st e' hk]⟩
    · cases hstep : detectStep R st e with
      | error msg => exact ⟨msg, by simp [processEvents, hstep]⟩
      | ok p =>
        obtain ⟨st1, vs1⟩ := p
        obtain ⟨msg, hmsg⟩ := ih st1 ⟨e', he', hk⟩
        exact ⟨msg, by simp [processEvents, hstep, hmsg]⟩

/-- Inversion of one successful step: how it moves `last_follow`, that every
violation it emits carries the event's formatted time, that only `SPEED` and
`STOP_SIGN_DETECTED` touch the pending stop wait, and that no `ROLLING_STOP`
can be emitted without a pending wait. -/
theorem detectStep_ok_inv (R : RoadRules) (st : DState) (e : Event) (st2 : DState)
    (vs : List Violation) (h : detectStep R st e = .ok (st2, vs)) :
    st2.last_follow = lastFollowStep st.last_follow e ∧
    (∀ v ∈ vs, v.time = _fmt_time e.time) ∧
    (e.kind ≠ "SPEED" → e.kind ≠ "STOP_SIGN_DETECTED" →
      st2.stop_detect_time = st.stop_detect_time) ∧
    (st.stop_detect_time = none → countType vs "ROLLING_STOP" = 0) := by
  obtain ⟨et, ek, ea⟩ := e
  obtain ⟨lf, sd⟩ := st
  by_cases h1 : ek = "SPEED"
  · subst h1
    rw [detectStep_speed_eq] at h
    rcases hpf : pyFloat? ea.data with - | speed <;> rw [hpf] at h
    · cases h
    · dsimp only at h
      rcases sd with - | t0 <;> dsimp only at h <;>
        split_ifs at h <;> cases h <;>
        simp_all [lastFollowStep, countType]
  · by_cases h2 : ek = "FOLLOW_DISTANCE"
    · subst h2
      have h0 : detectStep R ⟨lf, sd⟩ ⟨et, "FOLLOW_DISTANCE", ea⟩ =
          match pyFloat? ea.data with
          | none => .error ("could not convert string to float: " ++ ea)
          | some dist =>
            if dist < R.min_follow_distance then
              .ok ({ last_follow := some dist, stop_detect_time := sd },
                [⟨"TAILGATING", _fmt_time et,
                  fmtFixed1 dist ++ " m < " ++ fmtFixed1 R.min_follow_distance ++ " m"⟩])
            else .ok ({ last_follow := some dist, stop_detect_time := sd }, []) := rfl
      rw [h0] at h
      rcases hpf : pyFloat? ea.data with - | dist <;> rw [hpf] at h
      · cases h
      · dsimp only at h
        split_ifs at h <;> cases h <;>
          simp_all [lastFollowStep, countType]
    · by_cases h3 : ek = "LANE_CHANGE"
      · subst h3
        rw [detectStep_lane_eq] at h
        rcases sd' : (⟨lf, sd⟩ : DState).last_follow with - | d <;> rw [sd'] at h <;>
          dsimp only at h
        · cases h
          simp_all [lastFollowStep, countType]
        · split_ifs at h <;> cases h <;>
            simp_all [lastFollowStep, countType]
      · by_cases h4 : ek = "STOP_SIGN_DETECTED"
        · subst h4
          rw [detectStep_stop_eq] at h
          cases h
          simp_all [lastFollowStep, countType]
        · rw [detectStep_unknown R ⟨lf, sd⟩ ⟨et, ek, ea⟩
            (by simp [isKnownKind, h1, h2, h3, h4])] at h
          cases h

/-- C1: rolling-stop protocol, per event. (1) `STOP_SIGN_DETECTED` records
its timestamp, overwriting any pending wait, and emits nothing. (2) With a
wait pending from `t0`, a `SPEED` event with value strictly above 1.0 and
time strictly after `t0` clears the pending wait and emits exactly one
`ROLLING_STOP` exactly when `t - t0 < stop_sign_wait` (equality emits none).
(3) A `SPEED` event failing that test leaves the pending wait in place and
emits no `ROLLING_STOP`. (4) With no pending wait, no successful step emits
a `ROLLING_STOP` (so once cleared, the same detection cannot re-trigger).
(5) Events other than `SPEED` and `STOP_SIGN_DETECTED` never touch the
pending wait. -/
theorem C1_rolling_stop (R : RoadRules) (st : DState) (t t0 v : ℚ) (a arg : String) :
    (detectStep R st ⟨t, "STOP_SIGN_DETECTED", arg⟩ =
      .ok ({ st with stop_detect_time := some t }, [])) ∧
    (st.stop_detect_time = some t0 → pyFloat? a.data = some v → 1 < v → t0 < t →
      ∃ st2 vs, detectStep R st ⟨t, "SPEED", a⟩ = .ok (st2, vs) ∧
        st2.stop_detect_time = none ∧
        countType vs "ROLLING_STOP" = (if t - t0 < R.stop_sign_wait then 1 else 0) ∧
        (t - t0 = R.stop_sign_wait → countType vs "ROLLING_STOP" = 0)) ∧
    (st.stop_detect_time = some t0 → pyFloat? a.data = some v → (v ≤ 1 ∨ t ≤ t0) →
      ∃ st2 vs, detectStep R st ⟨t, "SPEED", a⟩ = .ok (st2, vs) ∧
        st2.stop_detect_time = some t0 ∧ countType vs "ROLLING_STOP" = 0) ∧
    (st.stop_detect_time = none →
      ∀ (e : Event) (st2 : DState) (vs : List Violation),
        detectStep R st e = .ok (st2, vs) → countType vs "ROLLING_STOP" = 0) ∧
    (∀ (e : Event) (st2 : DState) (vs : List Violation),
      detectStep R st e = .ok (st2, vs) →
      e.kind ≠ "SPEED" → e.kind ≠ "STOP_SIGN_DETECTED" →
        st2.stop_detect_time = st.stop_detect_time) := by
  refine ⟨detectStep_stop_eq R st t arg, ?_, ?_, ?_, ?_⟩
  · intro hsd ha hv ht
    rw [detectStep_speed_eq, ha, hsd]
    dsimp only
    rw [if_pos ⟨hv, ht⟩]
    refine ⟨_, _, rfl, rfl, ?_, ?_⟩ <;> split_ifs with hw hs <;>
      simp_all [countType] <;>
      first
        | (exact fun h => absurd (h ▸ ‹t - t0 < R.stop_sign_wait›) (lt_irrefl _))
        | skip
  · intro hsd ha hcond
    rw [detectStep_speed_eq, ha, hsd]
    dsimp only
    rw [if_neg (by
      rintro ⟨hv1, ht1⟩
      rcases hcond with h | h
      exacts [absurd hv1 (not_lt.mpr h), absurd ht1 (not_lt.mpr h)])]
    refine ⟨st, _, rfl, hsd, ?_⟩
    split_ifs <;> simp [countType]
  · intro hsd e st2 vs hstep
    exact (detectStep_ok_inv R st e st2 vs hstep).2.2.2 hsd
  · intro e st2 vs hstep h1 h2
    exact (detectStep_ok_inv R st e st2 vs hstep).2.2.1 h1 h2

/-- Witness for C1: stop sign at time 3, then `SPEED 5.0` at time 3.5 with
`stop_sign_wait = 3`: the wait is cleared and exactly one `ROLLING_STOP`
is emitted (`0.5 < 3`). -/
theorem C1_rolling_stop_witness :
    (detectStep ⟨60, 10, 3⟩ ⟨none, none⟩ ⟨3, "STOP_SIGN_DETECTED", ""⟩ =
      .ok (⟨none, some 3⟩, [])) ∧
    ∃ st2 vs, detectStep ⟨60, 10, 3⟩ ⟨none, some 3⟩ ⟨7/2, "SPEED", "5.0"⟩ = .ok (st2, vs) ∧
      st2.stop_detect_time = none ∧ countType vs "ROLLING_STOP" = 1 := by
  refine ⟨(C1_rolling_stop ⟨60, 10, 3⟩ ⟨none, none⟩ 3 0 0 "" "").1, ?_⟩
  obtain ⟨st2, vs, h1, h2, h3, h4⟩ :=
    (C1_rolling_stop ⟨60, 10, 3⟩ ⟨none, some 3⟩ (7/2) 3 5 "5.0" "").2.1
      rfl (by decide) (by norm_num) (by norm_num)
  refine ⟨st2, vs, h1, h2, ?_⟩
  rw [h3]
  norm_num

/-- C6: an event whose kind is none of the four known kinds makes the whole
run fail: the step itself raises `unknown kind`, the error propagates out of
`detect_violations` (so no list of violations is returned at all), and the
empty event sequence yields the empty violation list without error. -/
theorem C6_unknown_kind (R : RoadRules) (es : List Event) :
    (detect_violations R ([] : List Event) = .ok []) ∧
    (∀ (st : DState) (e : Event), ¬ isKnownKind e.kind →
      detectStep R st e = .error ("unknown kind: " ++ e.kind)) ∧
    ((∃ e ∈ es, ¬ isKnownKind e.kind) →
      (∃ msg, detect_violations R es = .error msg) ∧
        ∀ vs, detect_violations R es ≠ .ok vs) := by
  refine ⟨rfl, fun st e hk => detectStep_unknown R st e hk, fun hex => ?_⟩
  obtain ⟨msg, hmsg⟩ := processEvents_error_of_unknown R es initState hex
  have hdv : detect_violations R es = .error msg := by
    simp [detect_violations, hmsg]
  exact ⟨⟨msg, hdv⟩, fun vs h => by rw [hdv] at h; cases h⟩

/-- Witness for C6: a sequence with an `UNKNOWN` event fails and returns no
violation list; the unknown step raises `unknown kind: UNKNOWN`. -/
theorem C6_unknown_kind_witness :
    (detect_violations ⟨60, 10, 3⟩ ([] : List Event) = .ok []) ∧
    (detectStep ⟨60, 10, 3⟩ initState ⟨1, "UNKNOWN", ""⟩ =
      .error ("unknown kind: " ++ "UNKNOWN")) ∧
    (∃ msg, detect_violations ⟨60, 10, 3⟩
        [⟨0, "SPEED", "10.0"⟩, ⟨1, "UNKNOWN", ""⟩] = .error msg) ∧
    ∀ vs, detect_violations ⟨60, 10, 3⟩
        [⟨0, "SPEED", "10.0"⟩, ⟨1, "UNKNOWN", ""⟩] ≠ .ok vs := by
  have h := C6_unknown_kind ⟨60, 10, 3⟩ [⟨0, "SPEED", "10.0"⟩, ⟨1, "UNKNOWN", ""⟩]
  obtain ⟨he, hstep, himp⟩ := h
  obtain ⟨herr, hnok⟩ := himp ⟨⟨1, "UNKNOWN", ""⟩, by decide, by decide⟩
  exact ⟨he, hstep initState ⟨1, "UNKNOWN", ""⟩ (by decide), herr, hnok⟩

/-- C9: the report carries the violation list unchanged and its length as
`total_violations`; the scenario name falls back to `"Unnamed"` for a null
scenario, an absent name, and a whitespace-only (or empty) name, and is the
stripped name otherwise. -/
theorem C9_make_report (sc : Option Scenario) (vs : List Violation) :
    (make_report sc vs).violations = vs ∧
    (make_report sc vs).total_violations = vs.length ∧
    (make_report none vs).scenario = "Unnamed" ∧
    (make_report (some ⟨none⟩) vs).scenario = "Unnamed" ∧
    (∀ n : String, pyStrip n = "" → (make_report (some ⟨some n⟩) vs).scenario = "Unnamed") ∧
    (∀ n : String, pyStrip n ≠ "" →
      (make_report (some ⟨some n⟩) vs).scenario = pyStrip n) := by
  refine ⟨rfl, rfl, rfl, rfl, ?_, ?_⟩
  · intro n hn
    simp [make_report, hn]
  · intro n hn
    have hne : ¬ n = "" := fun h => hn (by rw [h]; rfl)
    simp [make_report, hn, hne]

/-- Witness for C9: a name with surrounding blanks is stripped; a
whitespace-only name and a null scenario collapse to `"Unnamed"`; the list
and count are passed through. -/
theorem C9_make_report_witness :
    (make_report (some ⟨some "  Campus Drive  "⟩) []).scenario = "Campus Drive" ∧
    (make_report (some ⟨some "   "⟩) []).scenario = "Unnamed" ∧
    (make_report none []).scenario = "Unnamed" ∧
    (make_report none []).violations = [] ∧
    (make_report none []).total_violations = 0 := by
  have h1 := C9_make_report (some ⟨some "  Campus Drive  "⟩) ([] : List Violation)
  have h2 := C9_make_report (some ⟨some "   "⟩) ([] : List Violation)
  have h3 := C9_make_report (none : Option Scenario) ([] : List Violation)
  refine ⟨?_, h2.2.2.2.2.1 "   " (by decide), h3.2.2.1, h3.1, h3.2.1⟩
  have := h1.2.2.2.2.2 "  Campus Drive  " (by decide)
  rw [this]
  decide

/-- Decomposition of one successful loop iteration. -/
theorem processEvents_cons_ok (R : RoadRules) (st : DState) (e : Event)
    (rest : List Event) (st2 : DState) (vs : List Violation)
    (h : processEvents R st (e :: rest) = .ok (st2, vs)) :
    ∃ st1 vs1 vs2, detectStep R st e = .ok (st1, vs1) ∧
      processEvents R st1 rest = .ok (st2, vs2) ∧ vs = vs1 ++ vs2 := by
  simp only [processEvents] at h
  cases hstep : detectStep R st e with
  | error msg => rw [hstep] at h; cases h
  | ok p =>
    obtain ⟨st1, vs1⟩ := p
    rw [hstep] at h
    dsimp only at h
    cases hrest : processEvents R st1 rest with
    | error msg => rw [hrest] at h; cases h
    | ok q =>
      obtain ⟨st1', vs2⟩ := q
      rw [hrest] at h
      dsimp only at h
      cases h
      exact ⟨st1, vs1, vs2, rfl, hrest, rfl⟩

/-- Through a successful run the `last_follow` cell is the fold of
`lastFollowStep` over the events. -/
theorem processEvents_last_follow (R : RoadRules) :
    ∀ (es : List Event) (st st2 : DState) (vs : List Violation),
      processEvents R st es = .ok (st2, vs) →
      st2.last_follow = es.foldl lastFollowStep st.last_follow := by
  intro es
  induction es with
  | nil =>
    intro st st2 vs h
    cases h
    rfl
  | cons e rest ih =>
    intro st st2 vs h
    obtain ⟨st1, vs1, vs2, hstep, hrest, -⟩ := processEvents_cons_ok R st e rest st2 vs h
    rw [List.foldl_cons, ← (detectStep_ok_inv R st e st1 vs1 hstep).1]
    exact ih st1 st2 vs2 hrest

/-- A fold of `lastFollowStep` over events none of which is a
`FOLLOW_DISTANCE` leaves the accumulator unchanged. -/
theorem foldl_lastFollowStep_of_no_follow :
    ∀ (es : List Event) (acc : Option ℚ), (∀ e ∈ es, e.kind ≠ "FOLLOW_DISTANCE") →
      es.foldl lastFollowStep acc = acc := by
  intro es
  induction es with
  | nil => intro acc _; rfl
  | cons e rest ih =>
    intro acc hno
    rw [List.foldl_cons]
    have h1 : lastFollowStep acc e = acc := by
      unfold lastFollowStep
      rw [if_neg (hno e (List.mem_cons_self e rest))]
    rw [h1]
    exact ih acc fun e' he' => hno e' (List.mem_cons_of_mem e he')

/-- C4: after any successful run, the recorded `last_follow` is exactly the
most recent `FOLLOW_DISTANCE` value of the run (`none` when there was no
such event); a `LANE_CHANGE` step then emits one `UNSAFE_LANE_CHANGE`
exactly when a distance was recorded and it is strictly below
`min_follow_distance`, emits nothing when no `FOLLOW_DISTANCE` ever
occurred, and is entirely independent of the direction argument. -/
theorem C4_lane_change (R : RoadRules) (es : List Event) (st : DState)
    (vs : List Violation) (t : ℚ) (dir : String)
    (h : processEvents R initState es = .ok (st, vs)) :
    st.last_follow = lastFollowOf es ∧
    ((∀ e ∈ es, e.kind ≠ "FOLLOW_DISTANCE") → lastFollowOf es = none) ∧
    ∃ st2 vs2, detectStep R st ⟨t, "LANE_CHANGE", dir⟩ = .ok (st2, vs2) ∧
      (match lastFollowOf es with
       | none => vs2 = []
       | some d => countType vs2 "UNSAFE_LANE_CHANGE" =
           (if d < R.min_follow_distance then 1 else 0)) ∧
      (∀ dir2 : String, detectStep R st ⟨t, "LANE_CHANGE", dir2⟩ =
        detectStep R st ⟨t, "LANE_CHANGE", dir⟩) := by
  have hlf : st.last_follow = lastFollowOf es := by
    have h1 := processEvents_last_follow R es initState st vs h
    exact h1
  refine ⟨hlf, fun hno => ?_, ?_⟩
  · exact foldl_lastFollowStep_of_no_follow es none hno
  · have hdir : ∀ dir2 : String, detectStep R st ⟨t, "LANE_CHANGE", dir2⟩ =
        detectStep R st ⟨t, "LANE_CHANGE", dir⟩ := by
      intro dir2
      rw [detectStep_lane_eq, detectStep_lane_eq]
    rcases hcase : lastFollowOf es with - | d
    · refine ⟨st, [], ?_, rfl, hdir⟩
      rw [detectStep_lane_eq, hlf, hcase]
    · by_cases hd : d < R.min_follow_distance
      · refine ⟨st, [⟨"UNSAFE_LANE_CHANGE", _fmt_time t,
          "follow " ++ fmtFixed1 d ++ " m < " ++
            fmtFixed1 R.min_follow_distance ++ " m"⟩], ?_, ?_, hdir⟩
        · rw [detectStep_lane_eq, hlf, hcase]
          dsimp only
          rw [if_pos hd]
        · simp [countType, hd]
      · refine ⟨st, [], ?_, ?_, hdir⟩
        · rw [detectStep_lane_eq, hlf, hcase]
          dsimp only
          rw [if_neg hd]
        · simp [countType, hd]

/-- Witness for C4: after a run containing `FOLLOW_DISTANCE 5.0`, a lane
change (either direction, same result) emits exactly one
`UNSAFE_LANE_CHANGE` since `5 < 10`. -/
theorem C4_lane_change_witness :
    ∃ st2 vs2, detectStep ⟨60, 10, 3⟩ ⟨some 5, none⟩ ⟨2, "LANE_CHANGE", "LEFT"⟩ =
        .ok (st2, vs2) ∧
      countType vs2 "UNSAFE_LANE_CHANGE" = 1 ∧
      detectStep ⟨60, 10, 3⟩ ⟨some 5, none⟩ ⟨2, "LANE_CHANGE", "RIGHT"⟩ =
        detectStep ⟨60, 10, 3⟩ ⟨some 5, none⟩ ⟨2, "LANE_CHANGE", "LEFT"⟩ := by
  obtain ⟨hlf, hno, st2, vs2, hstep, hmatch, hdir⟩ :=
    C4_lane_change ⟨60, 10, 3⟩ [⟨1, "FOLLOW_DISTANCE", "5.0"⟩] ⟨some 5, none⟩
      [⟨"TAILGATING", "00:01.0", "5.0 m < 10.0 m"⟩] 2 "LEFT" (by decide)
  have hcase : lastFollowOf [⟨1, "FOLLOW_DISTANCE", "5.0"⟩] = some 5 := by decide
  rw [hcase] at hmatch
  dsimp only at hmatch
  rw [if_pos (by norm_num)] at hmatch
  exact ⟨st2, vs2, hstep, hmatch, hdir "RIGHT"⟩

/-- Stability of the post-pass sort: filtering at any one key value gives
the same list before and after sorting, so violations with equal keys keep
their emission order. -/
theorem sortViolations_stable (l : List Violation) (k : ℚ) :
    (sortViolations l).filter (fun v => decide (sortKey v.time = k)) =
      l.filter (fun v => decide (sortKey v.time = k)) := by
  unfold sortViolations
  set p : Violation → Bool := fun v => decide (sortKey v.time = k) with hp
  have hmem : ∀ v ∈ l.filter p, sortKey v.time = k := by
    intro v hv
    have h1 := (List.mem_filter.mp hv).2
    rw [hp] at h1
    exact of_decide_eq_true h1
  have hpair : (l.filter p).Pairwise vle := by
    refine List.pairwise_of_forall_mem_list ?_
    intro a ha b hb
    unfold vle
    rw [hmem a ha, hmem b hb]
  have hsub : List.Sublist (l.filter p) (l.insertionSort vle) :=
    List.sublist_insertionSort hpair (List.filter_sublist l)
  have hself : (l.filter p).filter p = l.filter p :=
    List.filter_eq_self.mpr fun a ha => (List.mem_filter.mp ha).2
  have h2 : List.Sublist (l.filter p) ((l.insertionSort vle).filter p) := by
    have h3 := hsub.filter p
    rwa [hself] at h3
  have hperm : ((l.insertionSort vle).filter p).Perm (l.filter p) :=
    (List.perm_insertionSort vle l).filter p
  exact (h2.eq_of_length hperm.length_eq.symm).symm

/-- C5: `detect_violations` returns the emitted violations sorted by the
digit-string surrogate of the formatted time (pairwise non-decreasing
keys), and the sort is stable: violations with equal keys appear in their
original emission order. -/
theorem C5_sorted_stable (R : RoadRules) (es : List Event) (st : DState)
    (raw : List Violation) (h : processEvents R initState es = .ok (st, raw)) :
    detect_violations R es = .ok (sortViolations raw) ∧
    (sortViolations raw).Pairwise (fun a b => sortKey a.time ≤ sortKey b.time) ∧
    ∀ k : ℚ, (sortViolations raw).filter (fun v => decide (sortKey v.time = k)) =
      raw.filter (fun v => decide (sortKey v.time = k)) := by
  refine ⟨by simp [detect_violations, h], ?_, fun k => sortViolations_stable raw k⟩
  exact List.sorted_insertionSort vle raw

/-- Witness for C5: a stop sign at 0 and `SPEED 70.0` at 0.5 emit a
`SPEEDING` and a `ROLLING_STOP` with the same formatted time `00:00.5`;
the returned list is key-sorted and keeps their emission order. -/
theorem C5_sorted_stable_witness :
    detect_violations ⟨60, 10, 3⟩
        [⟨0, "STOP_SIGN_DETECTED", ""⟩, ⟨1/2, "SPEED", "70.0"⟩] =
      .ok (sortViolations
        [⟨"SPEEDING", "00:00.5", "70.0 mph in 60 mph zone"⟩,
         ⟨"ROLLING_STOP", "00:00.5", "Stopped 0.5s; required 3.0s"⟩]) ∧
    (sortViolations
        [⟨"SPEEDING", "00:00.5", "70.0 mph in 60 mph zone"⟩,
         ⟨"ROLLING_STOP", "00:00.5", "Stopped 0.5s; required 3.0s"⟩]).Pairwise
      (fun a b => sortKey a.time ≤ sortKey b.time) ∧
    ∀ k : ℚ,
      (sortViolations
          [⟨"SPEEDING", "00:00.5", "70.0 mph in 60 mph zone"⟩,
           ⟨"ROLLING_STOP", "00:00.5", "Stopped 0.5s; required 3.0s"⟩]).filter
          (fun v => decide (sortKey v.time = k)) =
        [⟨"SPEEDING", "00:00.5", "70.0 mph in 60 mph zone"⟩,
         ⟨"ROLLING_STOP", "00:00.5", "Stopped 0.5s; required 3.0s"⟩].filter
          (fun v => decide (sortKey v.time = k)) :=
  C5_sorted_stable ⟨60, 10, 3⟩
    [⟨0, "STOP_SIGN_DETECTED", ""⟩, ⟨1/2, "SPEED", "70.0"⟩] ⟨none, none⟩
    [⟨"SPEEDING", "00:00.5", "70.0 mph in 60 mph zone"⟩,
     ⟨"ROLLING_STOP", "00:00.5", "Stopped 0.5s; required 3.0s"⟩] (by decide)

/-- `str.split(sep)` never returns an empty list of pieces. -/
theorem pySplit_ne_nil (sep : Char) : ∀ l : List Char, pySplit sep l ≠ [] := by
  intro l
  cases l with
  | nil => simp [pySplit]
  | cons c rest =>
    unfold pySplit
    split_ifs
    · simp
    · cases h : pySplit sep rest <;> simp

/-- `str.split(sep)` yields one more piece than there are separators, so
two pieces means exactly one separator. -/
theorem pySplit_length (sep : Char) : ∀ l : List Char,
    (pySplit sep l).length = l.count sep + 1 := by
  intro l
  induction l with
  | nil => rfl
  | cons c rest ih =>
    unfold pySplit
    by_cases hc : c = sep
    · rw [if_pos hc]
      subst hc
      simp [List.count_cons, ih]
    · rw [if_neg hc]
      cases h : pySplit sep rest with
      | nil => exact absurd h (pySplit_ne_nil sep rest)
      | cons p ps =>
        have h1 : (p :: ps).length = rest.count sep + 1 := h ▸ ih
        have hcc : (c == sep) = false := by simp [hc]
        simp [List.count_cons, hcc] at h1 ⊢
        omega

/-- C8 (amended): `parse_time` fails exactly when the input does not split
on `':'` into exactly two pieces (one colon), or the minutes piece is not an
`int()` literal, or the seconds piece is not a `float()` literal; when all
three parse, it succeeds with `minutes*60 + seconds`. Signed values are
accepted by `int()` / `float()`, so negative timestamps succeed. -/
theorem C8_parse_time_characterization (ts : String) :
    ((pySplit ':' ts.data).length = 2 ↔ ts.data.count ':' = 1) ∧
    ((pySplit ':' ts.data).length ≠ 2 → ∃ msg, parse_time ts = .error msg) ∧
    (∀ ms ss, pySplit ':' ts.data = [ms, ss] →
      (∀ (m : ℤ) (s : ℚ), pyInt? ms = some m → pyFloat? ss = some s →
        parse_time ts = .ok ((m : ℚ) * 60 + s)) ∧
      ((pyInt? ms = none ∨ pyFloat? ss = none) →
        ∃ msg, parse_time ts = .error msg)) := by
  refine ⟨?_, ?_, ?_⟩
  · have h := pySplit_length ':' ts.data
    omega
  · intro hne
    unfold parse_time
    cases hs : pySplit ':' ts.data with
    | nil => exact absurd hs (pySplit_ne_nil ':' ts.data)
    | cons a l =>
      cases l with
      | nil => exact ⟨_, rfl⟩
      | cons b l2 =>
        cases l2 with
        | nil => exact absurd (by rw [hs]; rfl) hne
        | cons c l3 => exact ⟨_, rfl⟩
  · intro ms ss hsplit
    constructor
    · intro m s hm hsf
      unfold parse_time
      rw [hsplit]
      dsimp only
      rw [hm, hsf]
    · intro hfail
      unfold parse_time
      rw [hsplit]
      dsimp only
      rcases hfail with h | h
      · rw [h]
        exact ⟨_, rfl⟩
      · cases hpi : pyInt? ms with
        | none => exact ⟨_, rfl⟩
        | some m => rw [h]; exact ⟨_, rfl⟩

/-- Counterexample for C8 as frozen: the minutes piece `-5` of `"-5:30"` is
not a non-negative integer, yet `parse_time` does not fail: `int()` accepts
the sign and the call returns `-270.0`. -/
theorem C8_parse_time_counterexample :
    parse_time "-5:30" = .ok (-270) ∧
    pySplit ':' "-5:30".data = ["-5".data, "30".data] ∧
    ∀ msg, parse_time "-5:30" ≠ .error msg := by
  refine ⟨by decide, by decide, ?_⟩
  intro msg h
  rw [show parse_time "-5:30" = .ok (-270) from by decide] at h
  cases h

/-- Witness for C8: `"1:02.5"` splits into `1` and `02.5`, parses to 62.5;
`"1:xx"` splits but the seconds piece is not a float literal, so it fails. -/
theorem C8_parse_time_witness :
    parse_time "1:02.5" = .ok (125 / 2) ∧
    ∃ msg, parse_time "1:xx" = .error msg := by
  have h1 := (C8_parse_time_characterization "1:02.5").2.2 "1".data "02.5".data (by decide)
  have h2 := (C8_parse_time_characterization "1:xx").2.2 "1".data "xx".data (by decide)
  have h3 := h1.1 1 (5 / 2) (by decide) (by decide)
  refine ⟨?_, h2.2 (Or.inr (by decide))⟩
  rw [h3]
  norm_num

/-! ### Digit and rounding machinery -/

theorem digitChar_toNat (d : ℕ) (hd : d < 10) : (digitChar d).toNat = 48 + d := by
  interval_cases d <;> rfl

theorem digitChar_isDigit (d : ℕ) (hd : d < 10) : (digitChar d).isDigit = true := by
  interval_cases d <;> decide

theorem digit_ne (c : Char) (h : c.isDigit = true) :
    c ≠ ':' ∧ c ≠ '.' ∧ c ≠ '-' ∧ c ≠ '+' ∧ c ≠ 'e' ∧ c ≠ 'E' := by
  refine ⟨?_, ?_, ?_, ?_, ?_, ?_⟩ <;>
    (rintro rfl; exact absurd h (by decide))

theorem natToCharsAux_congr : ∀ (n f1 f2 : ℕ), n < f1 → n < f2 →
    natToCharsAux f1 n = natToCharsAux f2 n := by
  intro n
  induction n using Nat.strong_induction_on with
  | _ n ih =>
    intro f1 f2 h1 h2
    cases f1 with
    | zero => omega
    | succ g1 =>
      cases f2 with
      | zero => omega
      | succ g2 =>
        unfold natToCharsAux
        by_cases h : n < 10
        · rw [if_pos h, if_pos h]
        · rw [if_neg h, if_neg h]
          have hn : n / 10 < n := Nat.div_lt_self (by omega) (by omega)
          rw [ih (n / 10) hn g1 g2 (by omega) (by omega)]

/-- The unfolding equation of `natToChars`, fuel removed. -/
theorem natToChars_eq (n : ℕ) : natToChars n =
    if n < 10 then [digitChar n] else natToChars (n / 10) ++ [digitChar (n % 10)] := by
  show natToCharsAux (n + 1) n = _
  unfold natToCharsAux
  by_cases h : n < 10
  · rw [if_pos h, if_pos h]
  · rw [if_neg h, if_neg h]
    have hn : n / 10 < n := Nat.div_lt_self (by omega) (by omega)
    rw [natToCharsAux_congr (n / 10) n (n / 10 + 1) (by omega) (by omega)]
    rfl

theorem digitsVal_from (a : ℕ) : ∀ B : List Char,
    B.foldl (fun x c => 10 * x + (c.toNat - 48)) a = a * 10 ^ B.length + digitsVal B := by
  intro B
  induction B generalizing a with
  | nil => simp [digitsVal]
  | cons c B ih =>
    unfold digitsVal at *
    rw [List.foldl_cons, List.foldl_cons, ih, ih (10 * 0 + (c.toNat - 48)),
      List.length_cons, pow_succ]
    ring

theorem digitsVal_append (A B : List Char) :
    digitsVal (A ++ B) = digitsVal A * 10 ^ B.length + digitsVal B := by
  unfold digitsVal
  rw [List.foldl_append]
  exact digitsVal_from _ B

theorem digitsVal_natToChars (n : ℕ) : digitsVal (natToChars n) = n := by
  induction n using Nat.strong_induction_on with
  | _ n ih =>
    rw [natToChars_eq]
    by_cases h : n < 10
    · rw [if_pos h]
      unfold digitsVal
      rw [List.foldl_cons, List.foldl_nil, digitChar_toNat n h]
      omega
    · rw [if_neg h, digitsVal_append]
      have hn : n / 10 < n := Nat.div_lt_self (by omega) (by omega)
      rw [ih (n / 10) hn]
      unfold digitsVal
      rw [List.foldl_cons, List.foldl_nil, digitChar_toNat (n % 10) (by omega)]
      simp
      omega

theorem natToChars_ne_nil (n : ℕ) : natToChars n ≠ [] := by
  rw [natToChars_eq]
  split_ifs <;> simp

theorem natToChars_all_digits (n : ℕ) : ∀ c ∈ natToChars n, c.isDigit = true := by
  induction n using Nat.strong_induction_on with
  | _ n ih =>
    rw [natToChars_eq]
    by_cases h : n < 10
    · rw [if_pos h]
      intro c hc
      rw [List.mem_singleton.mp hc]
      exact digitChar_isDigit n h
    · rw [if_neg h]
      intro c hc
      rcases List.mem_append.mp hc with h1 | h1
      · exact ih (n / 10) (Nat.div_lt_self (by omega) (by omega)) c h1
      · rw [List.mem_singleton.mp h1]
        exact digitChar_isDigit (n % 10) (by omega)

theorem natToChars_lt10 (n : ℕ) (h : n < 10) : natToChars n = [digitChar n] := by
  rw [natToChars_eq, if_pos h]

theorem natToChars_lt100 (n : ℕ) (h10 : 10 ≤ n) (h : n < 100) :
    natToChars n = [digitChar (n / 10), digitChar (n % 10)] := by
  rw [natToChars_eq, if_neg (by omega), natToChars_lt10 (n / 10) (by omega)]
  rfl

theorem natToChars_length_le (n : ℕ) (h : n < 100) : (natToChars n).length ≤ 2 := by
  by_cases h1 : n < 10
  · rw [natToChars_lt10 n h1]; simp
  · rw [natToChars_lt100 n (by omega) h]; simp

theorem digitsVal_replicate_zero (j : ℕ) :
    digitsVal (List.replicate j '0') = 0 := by
  induction j with
  | zero => rfl
  | succ k ih =>
    unfold digitsVal at *
    rw [List.replicate_succ, List.foldl_cons]
    simpa using ih

theorem digitsVal_padZeros (w : ℕ) (l : List Char) :
    digitsVal (padZeros w l) = digitsVal l := by
  unfold padZeros
  rw [digitsVal_append, digitsVal_replicate_zero]
  simp

theorem padZeros_all_digits (w : ℕ) (l : List Char)
    (h : ∀ c ∈ l, c.isDigit = true) : ∀ c ∈ padZeros w l, c.isDigit = true := by
  intro c hc
  rcases List.mem_append.mp hc with h1 | h1
  · rw [List.eq_of_mem_replicate h1]
    decide
  · exact h c h1

theorem padZeros_length (w : ℕ) (l : List Char) :
    (padZeros w l).length = max w l.length := by
  unfold padZeros
  rw [List.length_append, List.length_replicate]
  omega

theorem padZeros_ne_nil (w : ℕ) (l : List Char) (h : l ≠ []) : padZeros w l ≠ [] := by
  unfold padZeros
  intro hc
  rcases List.append_eq_nil.mp hc with ⟨-, h2⟩
  exact h h2

theorem ratFloor_eq_floor (q : ℚ) : ratFloor q = ⌊q⌋ := by
  unfold ratFloor
  rw [Int.fdiv_eq_ediv _ (by positivity), Rat.floor_def]

theorem fmt_s_bounds (t : ℚ) :
    0 ≤ t - (ratFloor (t / 60) : ℚ) * 60 ∧ t - (ratFloor (t / 60) : ℚ) * 60 < 60 := by
  rw [ratFloor_eq_floor]
  constructor
  · have h1 : ((⌊t / 60⌋ : ℚ)) ≤ t / 60 := Int.floor_le (t / 60)
    have h2 := mul_le_mul_of_nonneg_right h1 (by norm_num : (0 : ℚ) ≤ 60)
    rw [div_mul_cancel₀ t (by norm_num : (60 : ℚ) ≠ 0)] at h2
    linarith
  · have h1 : t / 60 < (⌊t / 60⌋ : ℚ) + 1 := Int.lt_floor_add_one (t / 60)
    have h2 := mul_lt_mul_of_pos_right h1 (by norm_num : (0 : ℚ) < 60)
    rw [div_mul_cancel₀ t (by norm_num : (60 : ℚ) ≠ 0)] at h2
    linarith

theorem rhe_eq (q : ℚ) : rhe q =
    if q - ⌊q⌋ < 1/2 then ⌊q⌋
    else if 1/2 < q - ⌊q⌋ then ⌊q⌋ + 1
    else if ⌊q⌋ % 2 = 0 then ⌊q⌋ else ⌊q⌋ + 1 := by
  unfold rhe
  rw [ratFloor_eq_floor]

theorem rhe_bounds (q : ℚ) : ⌊q⌋ ≤ rhe q ∧ rhe q ≤ ⌊q⌋ + 1 := by
  rw [rhe_eq]
  split_ifs <;> omega

theorem rhe_nonneg (q : ℚ) (h : 0 ≤ q) : 0 ≤ rhe q :=
  le_trans (Int.floor_nonneg.mpr h) (rhe_bounds q).1

theorem rhe_le (q : ℚ) (c : ℤ) (h : q < (c : ℚ)) : rhe q ≤ c := by
  have h1 := (rhe_bounds q).2
  have h2 : ⌊q⌋ < c := Int.floor_lt.mpr h
  omega

theorem rhe_mono {q1 q2 : ℚ} (h : q1 ≤ q2) : rhe q1 ≤ rhe q2 := by
  have hf : ⌊q1⌋ ≤ ⌊q2⌋ := Int.floor_le_floor h
  by_cases heq : ⌊q1⌋ = ⌊q2⌋
  · rw [rhe_eq, rhe_eq, ← heq]
    have hd : q1 - (⌊q1⌋ : ℚ) ≤ q2 - (⌊q1⌋ : ℚ) := by linarith
    split_ifs <;> first | omega | linarith
  · have h1 := (rhe_bounds q1).2
    have h2 := (rhe_bounds q2).1
    omega

theorem rhe_intCast (k : ℤ) : rhe ((k : ℤ) : ℚ) = k := by
  rw [rhe_eq, Int.floor_intCast, if_pos (by norm_num)]

theorem filter_time_key (c : Char) (h : c.isDigit = true) :
    (!(c == ':' || c == '.')) = true := by
  obtain ⟨h1, h2, -⟩ := digit_ne c h
  simp [h1, h2]

theorem filter_keep_digits (l : List Char) (h : ∀ c ∈ l, c.isDigit = true) :
    l.filter (fun c => !(c == ':' || c == '.')) = l :=
  List.filter_eq_self.mpr fun c hc => filter_time_key c (h c hc)

theorem digitsVal_single (d : ℕ) (h : d < 10) : digitsVal [digitChar d] = d := by
  unfold digitsVal
  rw [List.foldl_cons, List.foldl_nil, digitChar_toNat d h]
  omega

/-- The sort key of a formatted non-negative time is
`1000 * minutes + (rounded seconds in tenths)`. -/
theorem sortKey_fmt_time (t : ℚ) (ht : 0 ≤ t) :
    sortKey (_fmt_time t) =
      ((1000 * ratFloor (t / 60) +
        rhe (10 * (t - (ratFloor (t / 60) : ℚ) * 60)) : ℤ) : ℚ) := by
  have hm0 : 0 ≤ ratFloor (t / 60) := by
    rw [ratFloor_eq_floor]
    exact Int.floor_nonneg.mpr (by positivity)
  obtain ⟨hs0, hs60⟩ := fmt_s_bounds t
  have hn0 : 0 ≤ rhe (10 * (t - (ratFloor (t / 60) : ℚ) * 60)) :=
    rhe_nonneg _ (by linarith)
  have hn600 : rhe (10 * (t - (ratFloor (t / 60) : ℚ) * 60)) ≤ 600 :=
    rhe_le _ 600 (by push_cast; linarith)
  set mi : ℤ := ratFloor (t / 60) with hmdef
  set nn : ℕ := (rhe (10 * (t - (mi : ℚ) * 60))).toNat with hndef
  have hncast : (nn : ℤ) = rhe (10 * (t - (mi : ℚ) * 60)) := Int.toNat_of_nonneg hn0
  have hnle : nn ≤ 600 := by omega
  have hfmt : (_fmt_time t).data =
      padZeros 2 (natToChars mi.toNat) ++ ':' ::
        padZeros 4 (natToChars (nn / 10) ++ '.' :: [digitChar (nn % 10)]) := by
    have h1 : (_fmt_time t).data =
        intChars mi 2 ++ ':' ::
          padZeros 4 (natToChars (nn / 10) ++ '.' :: [digitChar (nn % 10)]) := rfl
    rw [h1]
    unfold intChars
    rw [if_neg (by omega)]
  have hd1 : ∀ c ∈ padZeros 2 (natToChars mi.toNat), c.isDigit = true :=
    padZeros_all_digits _ _ (natToChars_all_digits _)
  have hbaselen : (natToChars (nn / 10) ++ '.' :: [digitChar (nn % 10)]).length =
      (natToChars (nn / 10)).length + 2 := by
    simp [List.length_append]
  have hfilter : (_fmt_time t).data.filter (fun c => !(c == ':' || c == '.')) =
      padZeros 2 (natToChars mi.toNat) ++
        (List.replicate (4 - ((natToChars (nn / 10)).length + 2)) '0' ++
          (natToChars (nn / 10) ++ [digitChar (nn % 10)])) := by
    rw [hfmt, List.filter_append, filter_keep_digits _ hd1,
      List.filter_cons_of_neg (by decide)]
    congr 1
    unfold padZeros
    rw [hbaselen, List.filter_append, List.filter_append,
      filter_keep_digits _ (fun c hc => by rw [List.eq_of_mem_replicate hc]; decide),
      filter_keep_digits _ (natToChars_all_digits _),
      List.filter_cons_of_neg (by decide),
      filter_keep_digits _ (fun c hc => by
        rw [List.mem_singleton.mp hc]
        exact digitChar_isDigit _ (by omega))]
  have hlen : (natToChars (nn / 10)).length ≤ 2 :=
    natToChars_length_le _ (by omega)
  have hsufval : digitsVal
      (List.replicate (4 - ((natToChars (nn / 10)).length + 2)) '0' ++
        (natToChars (nn / 10) ++ [digitChar (nn % 10)])) = nn := by
    rw [digitsVal_append, digitsVal_replicate_zero, digitsVal_append,
      digitsVal_natToChars, digitsVal_single _ (by omega)]
    simp
    omega
  have hsuflen : (List.replicate (4 - ((natToChars (nn / 10)).length + 2)) '0' ++
      (natToChars (nn / 10) ++ [digitChar (nn % 10)])).length = 3 := by
    simp [List.length_append, List.length_replicate]
    omega
  have hval : digitsVal ((_fmt_time t).data.filter (fun c => !(c == ':' || c == '.'))) =
      mi.toNat * 1000 + nn := by
    rw [hfilter, digitsVal_append, hsufval, hsuflen, digitsVal_padZeros,
      digitsVal_natToChars]
    norm_num
  have hdigits : ∀ c ∈ (_fmt_time t).data.filter (fun c => !(c == ':' || c == '.')),
      c.isDigit = true := by
    rw [hfilter]
    intro c hc
    rcases List.mem_append.mp hc with h1 | h1
    · exact hd1 c h1
    rcases List.mem_append.mp h1 with h2 | h2
    · rw [List.eq_of_mem_replicate h2]; decide
    rcases List.mem_append.mp h2 with h3 | h3
    · exact natToChars_all_digits _ c h3
    · rw [List.mem_singleton.mp h3]
      exact digitChar_isDigit _ (by omega)
  have hne : (_fmt_time t).data.filter (fun c => !(c == ':' || c == '.')) ≠ [] := by
    rw [hfilter]
    intro hc
    rcases List.append_eq_nil.mp hc with ⟨h1, -⟩
    exact padZeros_ne_nil _ _ (natToChars_ne_nil _) h1
  unfold sortKey
  cases hD : (_fmt_time t).data.filter (fun c => !(c == ':' || c == '.')) with
  | nil => exact absurd hD hne
  | cons c r =>
    have hcdig : c.isDigit = true := hdigits c (by rw [hD]; exact List.mem_cons_self c r)
    have hcne : ¬ c = '-' := (digit_ne c hcdig).2.2.1
    dsimp only
    rw [if_neg hcne, ← hD, hval]
    have : ((mi.toNat * 1000 + nn : ℕ) : ℤ) = 1000 * mi + rhe (10 * (t - (mi : ℚ) * 60)) := by
      push_cast [Int.toNat_of_nonneg hm0, hncast]
      omega
    exact_mod_cast congrArg (fun z : ℤ => (z : ℚ)) this

/-- For non-negative times the digit-string sort key is monotone in the
timestamp. -/
theorem sortKey_fmt_mono (t1 t2 : ℚ) (h0 : 0 ≤ t1) (h12 : t1 ≤ t2) :
    sortKey (_fmt_time t1) ≤ sortKey (_fmt_time t2) := by
  rw [sortKey_fmt_time t1 h0, sortKey_fmt_time t2 (le_trans h0 h12)]
  rw [Int.cast_le]
  have hm : ratFloor (t1 / 60) ≤ ratFloor (t2 / 60) := by
    rw [ratFloor_eq_floor, ratFloor_eq_floor]
    exact Int.floor_le_floor (by linarith)
  by_cases heq : ratFloor (t1 / 60) = ratFloor (t2 / 60)
  · rw [heq]
    have hs : 10 * (t1 - (ratFloor (t2 / 60) : ℚ) * 60) ≤
        10 * (t2 - (ratFloor (t2 / 60) : ℚ) * 60) := by linarith
    have hr := rhe_mono hs
    omega
  · have hlt : ratFloor (t1 / 60) < ratFloor (t2 / 60) := lt_of_le_of_ne hm heq
    have hb1 := fmt_s_bounds t1
    have hb2 := fmt_s_bounds t2
    have hn1 : rhe (10 * (t1 - (ratFloor (t1 / 60) : ℚ) * 60)) ≤ 600 :=
      rhe_le _ 600 (by push_cast; linarith [hb1.2])
    have hn2 : 0 ≤ rhe (10 * (t2 - (ratFloor (t2 / 60) : ℚ) * 60)) :=
      rhe_nonneg _ (by linarith [hb2.1])
    omega

/-- Every violation of a successful run carries the formatted time of one of
its events. -/
theorem processEvents_mem_time (R : RoadRules) :
    ∀ (es : List Event) (st st2 : DState) (raw : List Violation),
      processEvents R st es = .ok (st2, raw) →
      ∀ v ∈ raw, ∃ e ∈ es, v.time = _fmt_time e.time := by
  intro es
  induction es with
  | nil =>
    intro st st2 raw h
    cases h
    intro v hv
    exact absurd hv (List.not_mem_nil v)
  | cons e rest ih =>
    intro st st2 raw h
    obtain ⟨st1, vs1, vs2, hstep, hrest, rfl⟩ :=
      processEvents_cons_ok R st e rest st2 raw h
    intro v hv
    rcases List.mem_append.mp hv with h1 | h1
    · exact ⟨e, List.mem_cons_self e rest,
        (detectStep_ok_inv R st e st1 vs1 hstep).2.1 v h1⟩
    · obtain ⟨e', he', ht⟩ := ih st1 st2 vs2 hrest v h1
      exact ⟨e', List.mem_cons_of_mem e he', ht⟩

/-- With non-negative, non-decreasing timestamps, the emitted violations of
a run come out with non-decreasing sort keys. -/
theorem processEvents_pairwise (R : RoadRules) :
    ∀ (es : List Event) (st st2 : DState) (raw : List Violation),
      (∀ e ∈ es, 0 ≤ e.time) → (es.map Event.time).Pairwise (· ≤ ·) →
      processEvents R st es = .ok (st2, raw) → raw.Pairwise vle := by
  intro es
  induction es with
  | nil =>
    intro st st2 raw _ _ h
    cases h
    exact List.Pairwise.nil
  | cons e rest ih =>
    intro st st2 raw hnn hsort h
    obtain ⟨st1, vs1, vs2, hstep, hrest, rfl⟩ :=
      processEvents_cons_ok R st e rest st2 raw h
    have htimes1 := (detectStep_ok_inv R st e st1 vs1 hstep).2.1
    have hsort' : (∀ a ∈ rest, e.time ≤ a.time) ∧
        (rest.map Event.time).Pairwise (· ≤ ·) := by simpa using hsort
    rw [List.pairwise_append]
    refine ⟨?_, ?_, ?_⟩
    · refine List.pairwise_of_forall_mem_list ?_
      intro a ha b hb
      unfold vle
      rw [htimes1 a ha, htimes1 b hb]
    · exact ih st1 st2 vs2 (fun e' he' => hnn e' (List.mem_cons_of_mem e he'))
        hsort'.2 hrest
    · intro a ha b hb
      obtain ⟨e', he', hbt⟩ := processEvents_mem_time R rest st1 st2 vs2 hrest b hb
      unfold vle
      rw [htimes1 a ha, hbt]
      refine sortKey_fmt_mono e.time e'.time (hnn e (List.mem_cons_self e rest)) ?_
      exact hsort'.1 e' he'

/-- C10 (amended): with non-negative, non-decreasing timestamps the
post-pass sort permutes nothing: `detect_violations` returns exactly the
emission order. -/
theorem C10_sort_is_identity (R : RoadRules) (es : List Event) (st : DState)
    (raw : List Violation) (hnn : ∀ e ∈ es, 0 ≤ e.time)
    (hsort : (es.map Event.time).Pairwise (· ≤ ·))
    (h : processEvents R initState es = .ok (st, raw)) :
    detect_violations R es = .ok raw := by
  have hp : raw.Pairwise vle :=
    processEvents_pairwise R es initState st raw hnn hsort h
  have hid : sortViolations raw = raw := List.Sorted.insertionSort_eq hp
  simp [detect_violations, h, hid]

/-- Witness for C10 (amended): a sorted non-negative run comes back in
emission order. -/
theorem C10_sort_is_identity_witness :
    detect_violations ⟨60, 10, 3⟩ [⟨0, "SPEED", "70.0"⟩, ⟨1, "FOLLOW_DISTANCE", "5.0"⟩] =
      .ok [⟨"SPEEDING", "00:00.0", "70.0 mph in 60 mph zone"⟩,
           ⟨"TAILGATING", "00:01.0", "5.0 m < 10.0 m"⟩] :=
  C10_sort_is_identity ⟨60, 10, 3⟩
    [⟨0, "SPEED", "70.0"⟩, ⟨1, "FOLLOW_DISTANCE", "5.0"⟩] ⟨some 5, none⟩
    [⟨"SPEEDING", "00:00.0", "70.0 mph in 60 mph zone"⟩,
     ⟨"TAILGATING", "00:01.0", "5.0 m < 10.0 m"⟩]
    (by decide) (by decide) (by decide)

/-- Counterexample for C10 as frozen: with negative (still non-decreasing)
timestamps the key is not monotone — `_fmt_time` puts the sign only on the
minutes — so the sort really permutes: two `SPEEDING` violations emitted at
times `-30` and `-0.5` come back in the opposite order. -/
theorem C10_counterexample :
    ((-30 : ℚ) ≤ -1/2) ∧
    processEvents ⟨60, 10, 3⟩ initState
        [⟨-30, "SPEED", "100.0"⟩, ⟨-1/2, "SPEED", "100.0"⟩] =
      .ok (⟨none, none⟩,
        [⟨"SPEEDING", "-1:30.0", "100.0 mph in 60 mph zone"⟩,
         ⟨"SPEEDING", "-1:59.5", "100.0 mph in 60 mph zone"⟩]) ∧
    detect_violations ⟨60, 10, 3⟩
        [⟨-30, "SPEED", "100.0"⟩, ⟨-1/2, "SPEED", "100.0"⟩] =
      .ok [⟨"SPEEDING", "-1:59.5", "100.0 mph in 60 mph zone"⟩,
           ⟨"SPEEDING", "-1:30.0", "100.0 mph in 60 mph zone"⟩] ∧
    ([⟨"SPEEDING", "-1:59.5", "100.0 mph in 60 mph zone"⟩,
      ⟨"SPEEDING", "-1:30.0", "100.0 mph in 60 mph zone"⟩] :
        List Violation) ≠
      [⟨"SPEEDING", "-1:30.0", "100.0 mph in 60 mph zone"⟩,
       ⟨"SPEEDING", "-1:59.5", "100.0 mph in 60 mph zone"⟩] := by
  refine ⟨by norm_num, by decide, by decide, by decide⟩

theorem pySplit_no_sep (sep : Char) : ∀ l : List Char, (∀ c ∈ l, c ≠ sep) →
    pySplit sep l = [l] := by
  intro l
  induction l with
  | nil => intro _; rfl
  | cons c rest ih =>
    intro h
    unfold pySplit
    rw [if_neg (h c (List.mem_cons_self c rest)),
      ih (fun c' hc' => h c' (List.mem_cons_of_mem c hc'))]

theorem splitExpMark_none : ∀ l : List Char, (∀ c ∈ l, ¬(c = 'e' ∨ c = 'E')) →
    splitExpMark l = none := by
  intro l
  induction l with
  | nil => intro _; rfl
  | cons c rest ih =>
    intro h
    unfold splitExpMark
    rw [if_neg (h c (List.mem_cons_self c rest)),
      ih (fun c' hc' => h c' (List.mem_cons_of_mem c hc'))]

theorem splitOnce_cons_ne (sep c : Char) (l : List Char) (h : ¬ c = sep) :
    splitOnce sep (c :: l) =
      match splitOnce sep l with
      | none => none
      | some (a, b) => some (c :: a, b) := by
  show (if c = sep then some ([], l) else
      match splitOnce sep l with
      | none => none
      | some (a, b) => some (c :: a, b)) = _
  rw [if_neg h]

theorem digitsVal_pair (a b : ℕ) (ha : a < 10) (hb : b < 10) :
    digitsVal [digitChar a, digitChar b] = 10 * a + b := by
  unfold digitsVal
  rw [List.foldl_cons, List.foldl_cons, List.foldl_nil,
    digitChar_toNat a ha, digitChar_toNat b hb]
  omega

theorem fracVal_single (d : ℕ) (h : d < 10) :
    fracVal [digitChar d] = (d : ℚ) / 10 := by
  unfold fracVal
  rw [List.foldr_cons, List.foldr_nil, digitChar_toNat d h]
  norm_num

theorem pad2_eq (m : ℕ) (h : m < 100) :
    padZeros 2 (natToChars m) = [digitChar (m / 10), digitChar (m % 10)] := by
  by_cases h1 : m < 10
  · rw [natToChars_lt10 m h1]
    have h2 : digitChar (m / 10) = '0' := by
      rw [Nat.div_eq_of_lt h1]; decide
    rw [h2, Nat.mod_eq_of_lt h1]
    rfl
  · rw [natToChars_lt100 m (by omega) h]
    rfl

theorem pad4_eq (n : ℕ) (h : n < 600) :
    padZeros 4 (natToChars (n / 10) ++ '.' :: [digitChar (n % 10)]) =
      [digitChar (n / 100), digitChar (n / 10 % 10), '.', digitChar (n % 10)] := by
  by_cases h1 : n / 10 < 10
  · rw [natToChars_lt10 _ h1]
    have h2 : digitChar (n / 100) = '0' := by
      have h3 : n / 100 = 0 := by omega
      rw [h3]; decide
    rw [h2, Nat.mod_eq_of_lt h1]
    rfl
  · rw [natToChars_lt100 (n / 10) (by omega) (by omega)]
    have h2 : n / 10 / 10 = n / 100 := by omega
    rw [h2]
    rfl

theorem pySplit_cons_sep (sep : Char) (l : List Char) :
    pySplit sep (sep :: l) = [] :: pySplit sep l := by
  show (if sep = sep then [] :: pySplit sep l else
      match pySplit sep l with
      | [] => [[sep]]
      | p :: ps => (sep :: p) :: ps) = _
  rw [if_pos rfl]

theorem pySplit_cons_ne (sep c : Char) (l : List Char) (h : ¬ c = sep) :
    pySplit sep (c :: l) =
      match pySplit sep l with
      | [] => [[c]]
      | p :: ps => (c :: p) :: ps := by
  show (if c = sep then [] :: pySplit sep l else
      match pySplit sep l with
      | [] => [[c]]
      | p :: ps => (c :: p) :: ps) = _
  rw [if_neg h]

theorem splitOnce_cons_sep (sep : Char) (l : List Char) :
    splitOnce sep (sep :: l) = some ([], l) := by
  show (if sep = sep then some ([], l) else
      match splitOnce sep l with
      | none => none
      | some (a, b) => some (sep :: a, b)) = _
  rw [if_pos rfl]

theorem pyInt?_of_digits (l : List Char) (hne : l ≠ [])
    (hdig : ∀ c ∈ l, c.isDigit = true) :
    pyInt? l = some ((digitsVal l : ℕ) : ℤ) := by
  cases l with
  | nil => exact absurd rfl hne
  | cons c r =>
    have hc := hdig c (List.mem_cons_self c r)
    show (if c = '-' then (digitsVal? r).map (fun k => -(k : ℤ))
      else if c = '+' then (digitsVal? r).map (fun k => (k : ℤ))
      else (digitsVal? (c :: r)).map (fun k => (k : ℤ))) = _
    rw [if_neg (digit_ne c hc).2.2.1, if_neg (digit_ne c hc).2.2.2.1]
    unfold digitsVal?
    simp only [List.isEmpty_cons, Bool.false_eq_true, if_false]
    rw [if_pos (List.all_eq_true.mpr hdig)]
    rfl

theorem pyFloat?_of_head_digit (c : Char) (r : List Char) (hc : c.isDigit = true) :
    pyFloat? (c :: r) = pyFloatUnsigned? (c :: r) := by
  show (if c = '-' then (pyFloatUnsigned? r).map (fun q => -q)
    else if c = '+' then pyFloatUnsigned? r
    else pyFloatUnsigned? (c :: r)) = _
  rw [if_neg (digit_ne c hc).2.2.1, if_neg (digit_ne c hc).2.2.2.1]

/-- C7 (amended): the round-trip holds for timestamps in the codec's own
canonical shape — zero-padded two-digit minutes below 60, `':'`, two-digit
seconds below 60, `'.'`, one decimal digit (`n` is the seconds value in
tenths): `parse_time` accepts such a string and `_fmt_time` prints the
parsed value back, character for character. -/
theorem C7_canonical_round_trip (m n : ℕ) (hm : m < 60) (hn : n < 600) :
    parse_time (canonicalTime m n) = .ok ((600 * m + n : ℚ) / 10) ∧
    _fmt_time ((600 * m + n : ℚ) / 10) = canonicalTime m n := by
  have hd1 : (digitChar (m / 10)).isDigit = true := digitChar_isDigit _ (by omega)
  have hd2 : (digitChar (m % 10)).isDigit = true := digitChar_isDigit _ (by omega)
  have hd3 : (digitChar (n / 100)).isDigit = true := digitChar_isDigit _ (by omega)
  have hd4 : (digitChar (n / 10 % 10)).isDigit = true := digitChar_isDigit _ (by omega)
  have hd5 : (digitChar (n % 10)).isDigit = true := digitChar_isDigit _ (by omega)
  have h10 : (10 : ℚ) * ((n / 10 : ℕ) : ℚ) + ((n % 10 : ℕ) : ℚ) = (n : ℚ) := by
    exact_mod_cast Nat.div_add_mod n 10
  constructor
  · -- parse direction
    have hsecs : pySplit ':' [digitChar (n / 100), digitChar (n / 10 % 10), '.',
        digitChar (n % 10)] = [[digitChar (n / 100), digitChar (n / 10 % 10), '.',
        digitChar (n % 10)]] := by
      refine pySplit_no_sep ':' _ ?_
      intro c hc
      simp only [List.mem_cons, List.not_mem_nil, or_false] at hc
      rcases hc with rfl | rfl | rfl | rfl
      · exact (digit_ne _ hd3).1
      · exact (digit_ne _ hd4).1
      · decide
      · exact (digit_ne _ hd5).1
    have hsplit : pySplit ':' (canonicalTime m n).data =
        [[digitChar (m / 10), digitChar (m % 10)],
         [digitChar (n / 100), digitChar (n / 10 % 10), '.', digitChar (n % 10)]] := by
      have hstep : (canonicalTime m n).data = digitChar (m / 10) :: digitChar (m % 10) ::
          ':' :: [digitChar (n / 100), digitChar (n / 10 % 10), '.', digitChar (n % 10)] := rfl
      rw [hstep, pySplit_cons_ne ':' _ _ (digit_ne _ hd1).1,
        pySplit_cons_ne ':' _ _ (digit_ne _ hd2).1, pySplit_cons_sep, hsecs]
    have hint : pyInt? [digitChar (m / 10), digitChar (m % 10)] = some ((m : ℕ) : ℤ) := by
      rw [pyInt?_of_digits _ (by simp) (by
        intro c hc
        simp only [List.mem_cons, List.not_mem_nil, or_false] at hc
        rcases hc with rfl | rfl
        · exact hd1
        · exact hd2),
        digitsVal_pair _ _ (by omega) (by omega),
        show 10 * (m / 10) + m % 10 = m from by omega]
    have hsp : splitOnce '.' [digitChar (n / 100), digitChar (n / 10 % 10), '.',
        digitChar (n % 10)] =
        some ([digitChar (n / 100), digitChar (n / 10 % 10)], [digitChar (n % 10)]) := by
      rw [splitOnce_cons_ne _ _ _ (digit_ne _ hd3).2.1,
        splitOnce_cons_ne _ _ _ (digit_ne _ hd4).2.1, splitOnce_cons_sep]
    have hfloat : pyFloat? [digitChar (n / 100), digitChar (n / 10 % 10), '.',
        digitChar (n % 10)] = some (((n / 10 : ℕ) : ℚ) + ((n % 10 : ℕ) : ℚ) / 10) := by
      rw [pyFloat?_of_head_digit _ _ hd3]
      unfold pyFloatUnsigned?
      rw [splitExpMark_none _ (by
        intro c hc
        simp only [List.mem_cons, List.not_mem_nil, or_false] at hc
        rcases hc with rfl | rfl | rfl | rfl
        · rintro (h | h)
          exacts [(digit_ne _ hd3).2.2.2.2.1 h, (digit_ne _ hd3).2.2.2.2.2 h]
        · rintro (h | h)
          exacts [(digit_ne _ hd4).2.2.2.2.1 h, (digit_ne _ hd4).2.2.2.2.2 h]
        · rintro (h | h) <;> exact absurd h (by decide)
        · rintro (h | h)
          exacts [(digit_ne _ hd5).2.2.2.2.1 h, (digit_ne _ hd5).2.2.2.2.2 h])]
      unfold pyMantissa?
      rw [hsp]
      dsimp only
      rw [if_neg (by simp), if_pos (by simp [hd3, hd4, hd5]),
        digitsVal_pair _ _ (by omega) (by omega), fracVal_single _ (by omega),
        show 10 * (n / 100) + n / 10 % 10 = n / 10 from by omega]
    unfold parse_time
    rw [hsplit]
    dsimp only
    rw [hint, hfloat]
    dsimp only
    congr 1
    push_cast
    field_simp
    linarith [h10]
  · -- format direction
    have hmfloor : ratFloor ((600 * m + n : ℚ) / 10 / 60) = (m : ℤ) := by
      rw [ratFloor_eq_floor]
      have hdiv : (600 * m + n : ℚ) / 10 / 60 = (n : ℚ) / 600 + ((m : ℤ) : ℚ) := by
        push_cast
        field_simp
        ring
      rw [hdiv, Int.floor_add_int]
      have h0 : ⌊(n : ℚ) / 600⌋ = 0 := by
        rw [Int.floor_eq_zero_iff]
        constructor
        · positivity
        · rw [div_lt_one (by norm_num)]
          exact_mod_cast hn
      omega
    have hsval : (600 * m + n : ℚ) / 10 - ((m : ℤ) : ℚ) * 60 = (n : ℚ) / 10 := by
      push_cast
      field_simp
      ring
    have hrhe : rhe (10 * ((n : ℚ) / 10)) = (n : ℤ) := by
      rw [show (10 : ℚ) * ((n : ℚ) / 10) = ((n : ℤ) : ℚ) from by push_cast; ring,
        rhe_intCast]
    have hdata : (_fmt_time ((600 * m + n : ℚ) / 10)).data =
        intChars (ratFloor ((600 * m + n : ℚ) / 10 / 60)) 2 ++ ':' ::
          padZeros 4 (natToChars ((rhe (10 * ((600 * m + n : ℚ) / 10 -
              (ratFloor ((600 * m + n : ℚ) / 10 / 60) : ℚ) * 60))).toNat / 10) ++
            '.' :: [digitChar ((rhe (10 * ((600 * m + n : ℚ) / 10 -
              (ratFloor ((600 * m + n : ℚ) / 10 / 60) : ℚ) * 60))).toNat % 10)]) := rfl
    have hfinal : (_fmt_time ((600 * m + n : ℚ) / 10)).data = (canonicalTime m n).data := by
      rw [hdata, hmfloor, hsval, hrhe]
      have htn : ((n : ℤ)).toNat = n := Int.toNat_natCast n
      rw [htn]
      have hic : intChars (m : ℤ) 2 = padZeros 2 (natToChars m) := by
        unfold intChars
        rw [if_neg (by omega)]
        congr 1
      rw [hic, pad2_eq m (by omega), pad4_eq n hn]
      rfl
    exact congrArg String.mk hfinal

/-- Counterexample for C7 as frozen: `"1:02.5"` is accepted by the parser,
has minutes `1 < 60` and one decimal digit of seconds, yet formatting the
parsed value zero-pads the minutes, so the round-trip returns `"01:02.5"`,
not the original string. -/
theorem C7_round_trip_counterexample :
    parse_time "1:02.5" = .ok (125 / 2) ∧
    _fmt_time (125 / 2) = "01:02.5" ∧
    ("01:02.5" : String) ≠ "1:02.5" := by
  refine ⟨by decide, by decide, by decide⟩

/-- Witness for C7 (amended) at `m = 1`, `n = 25`: the canonical string
`"01:02.5"` parses to 62.5 and formats back to itself. -/
theorem C7_canonical_round_trip_witness :
    parse_time (canonicalTime 1 25) = .ok ((600 * 1 + 25 : ℚ) / 10) ∧
    _fmt_time ((600 * 1 + 25 : ℚ) / 10) = canonicalTime 1 25 :=
  C7_canonical_round_trip 1 25 (by norm_num) (by norm_num)
